import Mathlib

/-!
Verification of `scripts/version.py`, the version-management CLI of the
sip-ai-agent repository.

The script is shallowly embedded as follows.

* Python's `re` patterns used by the script are embedded as executable
  scanners over `List Char`.  The two patterns are
  `version = "([^"]+)"` (manifest search/substitution) and
  `^(\d+)\.(\d+)\.(\d+)(?:-.*)?$` (semantic-version parse).  Greedy
  character classes (`[^"]+`, `\d+`) are `takeWhile`/`dropWhile`, which is
  exact here because each class excludes the character that must follow it.
  Python's `$` matches at the end of the input or just before a trailing
  newline, and `.` does not match a newline; both are modelled.  `\d` is
  modelled by `Char.isDigit` (ASCII digits).
* The filesystem is the content of `pyproject.toml`: an `Option String`
  (`none` = file absent).  Functions that print return the list of printed
  lines; functions that may call `sys.exit` return an `Option Nat` exit
  code (`none` = returned normally).  An uncaught Python exception
  terminates the interpreter with exit code 1, which is how the `bump`
  action's `ValueError` is embedded in `main`.
* The external `git` binary is a small state: the set of existing tags plus
  two flags saying whether tag creation / tag pushing would fail.
  `git tag -l NAME` prints `NAME\n` when the tag exists and nothing
  otherwise; the truthiness test `result.stdout.strip()` is embedded by
  `trimChars`, a model of Python's `str.strip`.  Every external command the
  script would run is recorded in a `GitCmd` trace.
* `os.environ.get "GITHUB_REPOSITORY"` is an `Option String` parameter.
-/

set_option maxHeartbeats 1000000
set_option maxRecDepth 4000

namespace VersionScript

/-- Numeric value of a most-significant-first digit string, as computed by
Python `int` on the digits captured by `\d+`. -/
def digitsToNat (l : List Char) : Nat :=
  l.foldl (fun a c => 10 * a + (c.toNat - 48)) 0

/-- Fuel-indexed worker for `natToDigits`.  The rendered value shrinks by a
factor of ten each step, so fuel at least the value always suffices. -/
def natToDigitsFuel : Nat → Nat → List Char
  | 0, n => [Nat.digitChar n]
  | fuel + 1, n =>
    if n < 10 then [Nat.digitChar n]
    else natToDigitsFuel fuel (n / 10) ++ [Nat.digitChar (n % 10)]

/-- Decimal rendering of a natural number, modelling how a Python f-string
formats the nonnegative integers produced by `bump_version`. -/
def natToDigits (n : Nat) : List Char := natToDigitsFuel n n

/-- The canonical text of a version triple: the f-string
`"MAJOR.MINOR.PATCH"` built by `bump_version`. -/
def formatVersion (major minor patch : Nat) : String :=
  String.mk (natToDigits major ++ '.' :: natToDigits minor ++ '.' :: natToDigits patch)

/-- The literal part `version = "` of the manifest pattern
`version = "([^"]+)"`. -/
def versionLit : List Char := "version = \"".data

/-- Consume an exact literal from the front of the input. -/
def stripPrefixChars : List Char → List Char → Option (List Char)
  | [], l => some l
  | _ :: _, [] => none
  | p :: ps, c :: cs => if c = p then stripPrefixChars ps cs else none

/-- One attempt of the pattern `version = "([^"]+)"` at the head of the
input: on success, the captured group and the remaining input. -/
def tryMatchCapture (l : List Char) : Option (List Char × List Char) :=
  match stripPrefixChars versionLit l with
  | none => none
  | some rest =>
    let val := rest.takeWhile (fun c => c != '"')
    let rest2 := rest.dropWhile (fun c => c != '"')
    if val = [] then none
    else
      match rest2 with
      | '"' :: rest3 => some (val, rest3)
      | _ => none

/-- Fuel-indexed worker for `subAll`.  Each step either copies one
character or consumes a whole match (at least 12 characters), so fuel
equal to the length of the input always suffices. -/
def subAllFuel (repl : List Char) : Nat → List Char → List Char
  | 0, l => l
  | _ + 1, [] => []
  | fuel + 1, c :: rest =>
    match tryMatchCapture (c :: rest) with
    | some pr => repl ++ subAllFuel repl fuel pr.2
    | none => c :: subAllFuel repl fuel rest

/-- Python `re.sub(r'version = "[^"]+"', repl, text)`: replace every
non-overlapping occurrence, scanning left to right. -/
def subAll (repl : List Char) (l : List Char) : List Char :=
  subAllFuel repl l.length l

/-- Whether the text contains an occurrence of `version = "([^"]+)"`
anywhere (Python `re.search` succeeds). -/
def hasMatch : List Char → Bool
  | [] => false
  | c :: rest => (tryMatchCapture (c :: rest)).isSome || hasMatch rest

/-- Python `re.search(r'version = "([^"]+)"', text)` followed by
`.group(1)`: the captured group of the leftmost occurrence. -/
def searchVersionValue : List Char → Option (List Char)
  | [] => none
  | c :: rest =>
    match tryMatchCapture (c :: rest) with
    | some pr => some pr.1
    | none => searchVersionValue rest

/-- `get_current_version` from `scripts/version.py`: read
`pyproject.toml` (absent file → default `"0.1.0"`), search for
`version = "([^"]+)"` and return the captured group, else `"0.1.0"`. -/
def get_current_version (fs : Option String) : String :=
  match fs with
  | none => "0.1.0"
  | some content =>
    match searchVersionValue content.data with
    | some val => String.mk val
    | none => "0.1.0"

/-- The replacement text `f'version = "{new_version}"'` used by
`update_version_file`. -/
def versionRepl (new_version : String) : List Char :=
  versionLit ++ new_version.data ++ ['"']

/-- `update_version_file` from `scripts/version.py`: warn and skip when the
manifest is absent, otherwise rewrite it with the result of
`re.sub(r'version = "[^"]+"', f'version = "{new_version}"', content)`.
Returns the new filesystem state and the printed lines. -/
def update_version_file (fs : Option String) (new_version : String) :
    Option String × List String :=
  match fs with
  | none => (none, ["Warning: pyproject.toml not found, skipping version update"])
  | some content =>
    (some (String.mk (subAll (versionRepl new_version) content.data)),
     ["Updated version in pyproject.toml to " ++ new_version])

/-- The error cases of the script: the two `ValueError`s raised by
`parse_version` and `bump_version`. -/
inductive VersionError
  | invalidFormat (version : String)
  | invalidBumpKind (bumpType : String)
deriving DecidableEq

/-- Whether the text after the third digit group lets
`^(\d+)\.(\d+)\.(\d+)(?:-.*)?$` accept: the remainder must be empty or a
single trailing newline (Python `$`), or `-` followed by text whose only
newline, if any, is final. -/
def tailOk : List Char → Bool
  | [] => true
  | c :: rest =>
    if c = '\n' then rest.isEmpty
    else if c = '-' then rest.dropLast.all (fun x => x != '\n')
    else false

/-- Expect the literal `.` of the pattern; the rest of the input on
success. -/
def afterDot : List Char → Option (List Char)
  | [] => none
  | c :: r => if c = '.' then some r else none

/-- `re.match(r"^(\d+)\.(\d+)\.(\d+)(?:-.*)?$", ...)`: the three captured
digit groups converted by `int`, or `none` when the pattern rejects. -/
def matchSemver (l : List Char) : Option (Nat × Nat × Nat) :=
  let d1 := l.takeWhile Char.isDigit
  if d1 = [] then none
  else
    match afterDot (l.dropWhile Char.isDigit) with
    | none => none
    | some r2 =>
      let d2 := r2.takeWhile Char.isDigit
      if d2 = [] then none
      else
        match afterDot (r2.dropWhile Char.isDigit) with
        | none => none
        | some r4 =>
          let d3 := r4.takeWhile Char.isDigit
          if d3 = [] then none
          else if tailOk (r4.dropWhile Char.isDigit) then
            some (digitsToNat d1, digitsToNat d2, digitsToNat d3)
          else none

/-- `parse_version` from `scripts/version.py`: the semantic-version triple,
or the `ValueError` raised when the pattern rejects. -/
def parse_version (version : String) : Except VersionError (Nat × Nat × Nat) :=
  match matchSemver version.data with
  | some t => Except.ok t
  | none => Except.error (VersionError.invalidFormat version)

/-- `bump_version` from `scripts/version.py`: parse, then rebuild the
bumped triple with an f-string, or raise on an unknown bump type. -/
def bump_version (current_version bump_type : String) : Except VersionError String :=
  match parse_version current_version with
  | Except.error e => Except.error e
  | Except.ok (major, minor, patch) =>
    if bump_type = "major" then Except.ok (formatVersion (major + 1) 0 0)
    else if bump_type = "minor" then Except.ok (formatVersion major (minor + 1) 0)
    else if bump_type = "patch" then Except.ok (formatVersion major minor (patch + 1))
    else Except.error (VersionError.invalidBumpKind bump_type)

/-- The external commands the script can run, in the order it would run
them. -/
inductive GitCmd
  | listTags (tagName : String)
  | createTag (tagName message : String)
  | pushTag (remote tagName : String)
deriving DecidableEq

/-- The state of the external git repository, plus whether the two
mutating git invocations would exit non-zero. -/
structure GitWorld where
  tags : List String
  createFails : Bool
  pushFails : Bool
deriving DecidableEq

/-- Python `str.isspace` characters relevant to `str.strip`. -/
def isSpaceChar (c : Char) : Bool :=
  c = ' ' || c = '\t' || c = '\n' || c = '\r' || c = '\x0b' || c = '\x0c'

/-- Python `str.strip()`: drop leading and trailing whitespace. -/
def trimChars (l : List Char) : List Char :=
  ((l.dropWhile isSpaceChar).reverse.dropWhile isSpaceChar).reverse

/-- stdout of `git tag -l NAME`: the tag name on its own line when the tag
exists, empty otherwise. -/
def tagListOutput (w : GitWorld) (tagName : String) : List Char :=
  if tagName ∈ w.tags then tagName.data ++ ['\n'] else []

/-- Result of `create_git_tag`: new git state, commands run, lines printed,
and the exit code when the function called `sys.exit`. -/
structure TagResult where
  world : GitWorld
  cmds : List GitCmd
  output : List String
  exitCode : Option Nat
deriving DecidableEq

/-- `create_git_tag` from `scripts/version.py`: list tags matching
`v{version}`; when the stripped stdout is nonempty, report and return;
otherwise run `git tag -a`, exiting with code 1 when it fails. -/
def create_git_tag (w : GitWorld) (version : String) (message : Option String) : TagResult :=
  let tag_name := "v" ++ version
  let tag_message := message.getD ("Release version " ++ version)
  if trimChars (tagListOutput w tag_name) ≠ [] then
    ⟨w, [GitCmd.listTags tag_name], ["Tag " ++ tag_name ++ " already exists"], none⟩
  else if w.createFails then
    ⟨w, [GitCmd.listTags tag_name, GitCmd.createTag tag_name tag_message],
     ["Error creating git tag"], some 1⟩
  else
    ⟨{ w with tags := tag_name :: w.tags },
     [GitCmd.listTags tag_name, GitCmd.createTag tag_name tag_message],
     ["Created tag " ++ tag_name], none⟩

/-- Result of `push_tag`: commands run, lines printed, exit code when the
function called `sys.exit`. -/
structure PushResult where
  cmds : List GitCmd
  output : List String
  exitCode : Option Nat
deriving DecidableEq

/-- `push_tag` from `scripts/version.py`: `git push origin v{version}`,
exiting with code 1 when it fails. -/
def push_tag (w : GitWorld) (version : String) : PushResult :=
  let tag_name := "v" ++ version
  if w.pushFails then
    ⟨[GitCmd.pushTag "origin" tag_name], ["Error pushing tag"], some 1⟩
  else
    ⟨[GitCmd.pushTag "origin" tag_name], ["Pushed tag " ++ tag_name ++ " to remote"], none⟩

/-- Two invocations of `create_git_tag` in succession with the same
arguments, as two script runs would do; the trace of external commands.
The second run happens only if the first returned instead of exiting. -/
def create_git_tag_twice (w : GitWorld) (version : String) (message : Option String) :
    List GitCmd :=
  let r1 := create_git_tag w version message
  match r1.exitCode with
  | some _ => r1.cmds
  | none => r1.cmds ++ (create_git_tag r1.world version message).cmds

/-- Is the command an invocation of the underlying tag-create operation? -/
def isCreateCmd : GitCmd → Bool
  | GitCmd.createTag _ _ => true
  | _ => false

/-- How many tag-create invocations a command trace contains. -/
def countCreates (cmds : List GitCmd) : Nat := cmds.countP isCreateCmd

/-- The positional `action` argument (argparse rejects anything else with
its own usage error before `main`'s body runs). -/
inductive Action
  | currentA
  | bumpA
  | tagA
  | infoA
deriving DecidableEq

/-- The `--type` option; argparse restricts it to these choices. -/
inductive BumpType
  | major
  | minor
  | patch
deriving DecidableEq

/-- The string argparse stores for each `--type` choice. -/
def BumpType.toStr : BumpType → String
  | BumpType.major => "major"
  | BumpType.minor => "minor"
  | BumpType.patch => "patch"

/-- The parsed command line of the script. -/
structure Args where
  action : Action
  type : Option BumpType
  version : Option String
  message : Option String
  push : Bool
deriving DecidableEq

/-- `main` from `scripts/version.py`, reduced to the process exit code:
0 when `main` returns, 1 when it calls `sys.exit(1)` (missing `--type`,
failing git invocation) and 1 when the `ValueError` raised by
`bump_version` escapes `main` (Python exits with code 1 on an uncaught
exception). -/
def main (args : Args) (fs : Option String) (w : GitWorld) : Nat :=
  match args.action with
  | Action.currentA => 0
  | Action.bumpA =>
    match args.type with
    | none => 1
    | some t =>
      match bump_version (get_current_version fs) t.toStr with
      | Except.error _ => 1
      | Except.ok _ => 0
  | Action.tagA =>
    let version := args.version.getD (get_current_version fs)
    let r := create_git_tag w version args.message
    match r.exitCode with
    | some c => c
    | none =>
      if args.push then
        match (push_tag r.world version).exitCode with
        | some c => c
        | none => 0
      else 0
  | Action.infoA => 0

/-- The value returned by `get_docker_images_info`: the dict fields, with
the `images` sub-dict as an association list in insertion order. -/
structure DockerImagesInfo where
  registry : String
  repository : String
  version : String
  images : List (String × String)
deriving DecidableEq

/-- `get_docker_images_info` from `scripts/version.py`; the
`GITHUB_REPOSITORY` environment variable is passed as an
`Option String`. -/
def get_docker_images_info (version : String) (githubRepositoryEnv : Option String) :
    DockerImagesInfo :=
  let registry := "ghcr.io"
  let repo_name := githubRepositoryEnv.getD "sip-ai-agent"
  { registry := registry
    repository := repo_name
    version := version
    images :=
      [("sip_agent", registry ++ "/" ++ repo_name ++ ":" ++ version),
       ("sip_agent_latest", registry ++ "/" ++ repo_name ++ ":latest"),
       ("web_ui", registry ++ "/" ++ repo_name ++ "-web:" ++ version),
       ("web_ui_latest", registry ++ "/" ++ repo_name ++ "-web:latest")] }

/-- A nonempty all-digit group: what `(\d+)` captures. -/
def IsDigitGroup (l : List Char) : Prop := l ≠ [] ∧ ∀ c ∈ l, c.isDigit = true

/-- Declarative meaning of the pattern
`^(\d+)\.(\d+)\.(\d+)(?:-.*)?$` under Python semantics (`$` also matches
before one trailing newline; `.` excludes newlines). -/
def SuffixAccepted (t : List Char) : Prop :=
  t = [] ∨ t = ['\n'] ∨ ∃ r, t = '-' :: r ∧ ∀ c ∈ r.dropLast, c ≠ '\n'

/-- The text matches the semantic-version pattern: it decomposes into three
nonempty digit groups separated by dots, followed by an accepted tail. -/
def MatchesVersionPattern (s : String) : Prop :=
  ∃ d1 d2 d3 t, s.data = d1 ++ '.' :: (d2 ++ '.' :: (d3 ++ t)) ∧
    IsDigitGroup d1 ∧ IsDigitGroup d2 ∧ IsDigitGroup d3 ∧ SuffixAccepted t

theorem takeWhile_append_of (p : Char → Bool) (v : List Char) (c : Char) (r : List Char)
    (hv : ∀ x ∈ v, p x = true) (hc : p c = false) :
    (v ++ c :: r).takeWhile p = v := by
  induction v with
  | nil => simp [List.takeWhile_cons, hc]
  | cons a as ih =>
    have ha : p a = true := hv a (by simp)
    simp only [List.cons_append, List.takeWhile_cons, ha, if_true]
    rw [ih (fun x hx => hv x (by simp [hx]))]

theorem dropWhile_append_of (p : Char → Bool) (v : List Char) (c : Char) (r : List Char)
    (hv : ∀ x ∈ v, p x = true) (hc : p c = false) :
    (v ++ c :: r).dropWhile p = c :: r := by
  induction v with
  | nil => simp [List.dropWhile_cons, hc]
  | cons a as ih =>
    have ha : p a = true := hv a (by simp)
    simp only [List.cons_append, List.dropWhile_cons, ha, if_true]
    exact ih (fun x hx => hv x (by simp [hx]))

theorem takeWhile_all_eq (p : Char → Bool) (v : List Char)
    (hv : ∀ x ∈ v, p x = true) : v.takeWhile p = v := by
  induction v with
  | nil => rfl
  | cons a as ih =>
    have ha : p a = true := hv a (by simp)
    simp only [List.takeWhile_cons, ha, if_true]
    rw [ih (fun x hx => hv x (by simp [hx]))]

theorem dropWhile_all_eq (p : Char → Bool) (v : List Char)
    (hv : ∀ x ∈ v, p x = true) : v.dropWhile p = [] :=
  List.dropWhile_eq_nil_iff.mpr hv

theorem stripPrefixChars_eq (p : List Char) :
    ∀ l r, stripPrefixChars p l = some r → l = p ++ r := by
  induction p with
  | nil => intro l r h; simp [stripPrefixChars] at h; simp [h]
  | cons a as ih =>
    intro l r h
    match l with
    | [] => simp [stripPrefixChars] at h
    | c :: cs =>
      simp only [stripPrefixChars] at h
      by_cases hc : c = a
      · rw [if_pos hc] at h
        rw [List.cons_append, hc, ih cs r h]
      · rw [if_neg hc] at h; exact absurd h (by simp)

theorem stripPrefixChars_append (p r : List Char) :
    stripPrefixChars p (p ++ r) = some r := by
  induction p with
  | nil => rfl
  | cons a as ih => simp [stripPrefixChars, ih]

theorem dropWhile_head_false (p : Char → Bool) :
    ∀ (l : List Char) (c : Char) (r : List Char), l.dropWhile p = c :: r → p c = false := by
  intro l
  induction l with
  | nil => intro c r h; exact absurd h (by simp)
  | cons a as ih =>
    intro c r h
    by_cases hp : p a = true
    · rw [List.dropWhile_cons, if_pos hp] at h; exact ih c r h
    · rw [List.dropWhile_cons, if_neg hp] at h
      simp only [Bool.not_eq_true] at hp
      obtain ⟨h1, _⟩ := List.cons.inj h
      rw [← h1]; exact hp

theorem tryMatchCapture_eq_some (l v r : List Char)
    (h : tryMatchCapture l = some (v, r)) :
    l = versionLit ++ (v ++ '"' :: r) ∧ v ≠ [] ∧ ∀ c ∈ v, c ≠ '"' := by
  unfold tryMatchCapture at h
  cases hs : stripPrefixChars versionLit l with
  | none => rw [hs] at h; exact absurd h (by simp)
  | some rest =>
    rw [hs] at h
    simp only [] at h
    by_cases hv : rest.takeWhile (fun c => c != '"') = []
    · rw [if_pos hv] at h; exact absurd h (by simp)
    · rw [if_neg hv] at h
      cases hd : rest.dropWhile (fun c => c != '"') with
      | nil => rw [hd] at h; exact absurd h (by simp)
      | cons c rest3 =>
        have hc : (c != '"') = false := dropWhile_head_false _ rest c rest3 hd
        have hc2 : c = '"' := by simpa using hc
        subst hc2
        rw [hd] at h
        simp only [Option.some.injEq, Prod.mk.injEq] at h
        obtain ⟨hv2, hr⟩ := h
        have hsplit : rest.takeWhile (fun c => c != '"') ++
            rest.dropWhile (fun c => c != '"') = rest :=
          List.takeWhile_append_dropWhile _ _
        refine ⟨?_, ?_, ?_⟩
        · rw [stripPrefixChars_eq versionLit l rest hs, ← hsplit, hd, hv2, hr]
        · rw [← hv2]; exact hv
        · intro x hx
          rw [← hv2] at hx
          have := List.mem_takeWhile_imp hx
          simpa using this

theorem tryMatchCapture_occ (v r : List Char) (hv : v ≠ []) (hq : ∀ c ∈ v, c ≠ '"') :
    tryMatchCapture (versionLit ++ (v ++ '"' :: r)) = some (v, r) := by
  unfold tryMatchCapture
  rw [stripPrefixChars_append]
  simp only []
  have ht : (v ++ '"' :: r).takeWhile (fun c => c != '"') = v :=
    takeWhile_append_of _ v '"' r (fun x hx => by simpa using hq x hx) (by simp)
  have hd : (v ++ '"' :: r).dropWhile (fun c => c != '"') = '"' :: r :=
    dropWhile_append_of _ v '"' r (fun x hx => by simpa using hq x hx) (by simp)
  rw [ht, hd, if_neg hv]
  rfl

theorem tryMatchCapture_len (l : List Char) (pr : List Char × List Char)
    (h : tryMatchCapture l = some pr) : pr.2.length + 12 ≤ l.length := by
  obtain ⟨v, r⟩ := pr
  obtain ⟨hl, hv, _⟩ := tryMatchCapture_eq_some l v r h
  have hlit : versionLit.length = 11 := by decide
  rw [hl, List.length_append, List.length_append, List.length_cons, hlit]
  cases v with
  | nil => exact absurd rfl hv
  | cons a as => simp only [List.length_cons]; omega

theorem tryMatchCapture_none_noquote (l : List Char) (hq : ∀ c ∈ l, c ≠ '"') :
    tryMatchCapture l = none := by
  cases h : tryMatchCapture l with
  | none => rfl
  | some pr =>
    obtain ⟨v, r⟩ := pr
    obtain ⟨hl, _, _⟩ := tryMatchCapture_eq_some l v r h
    have hmem : '"' ∈ l := hl ▸ List.mem_append.mpr (Or.inl (by decide))
    exact absurd rfl (hq '"' hmem)

theorem tryMatchCapture_none_straddle (s t : List Char)
    (hq : ∀ c ∈ s, c ≠ '"') (hne : s ≠ []) :
    tryMatchCapture (s ++ 'v' :: t) = none := by
  cases h : tryMatchCapture (s ++ 'v' :: t) with
  | none => rfl
  | some pr =>
    obtain ⟨v, r⟩ := pr
    obtain ⟨hl, _, _⟩ := tryMatchCapture_eq_some _ v r h
    by_cases hlen : s.length < versionLit.length
    · have ha : (s ++ 'v' :: t)[s.length]? = some 'v' := by
        rw [List.getElem?_append_right (Nat.le_refl _)]
        simp
      have hb : (versionLit ++ (v ++ '"' :: r))[s.length]? = versionLit[s.length]? := by
        rw [List.getElem?_append]
        rw [if_pos hlen]
      rw [hl] at ha
      rw [ha] at hb
      have hpos : 0 < s.length := List.length_pos.mpr hne
      have hlit11 : versionLit.length = 11 := by decide
      have hno : ∀ n, 1 ≤ n → n < 11 → versionLit[n]? ≠ some 'v' := by decide
      exact absurd hb.symm (hno s.length hpos (hlit11 ▸ hlen))
    · have h11 : versionLit.length ≤ s.length := Nat.le_of_not_lt hlen
      have htake : versionLit = s.take versionLit.length := by
        have h1 : (versionLit ++ (v ++ '"' :: r)).take versionLit.length = versionLit :=
          List.take_left versionLit _
        rw [← hl, List.take_append_eq_append_take, Nat.sub_eq_zero_of_le h11,
          List.take_zero, List.append_nil] at h1
        exact h1.symm
      have hmem : '"' ∈ s := by
        have : '"' ∈ s.take versionLit.length := htake ▸ (by decide : '"' ∈ versionLit)
        exact List.take_subset _ s this
      exact absurd rfl (hq '"' hmem)

theorem subAllFuel_congr (repl : List Char) :
    ∀ (f1 f2 : Nat) (l : List Char), l.length ≤ f1 → l.length ≤ f2 →
      subAllFuel repl f1 l = subAllFuel repl f2 l := by
  intro f1
  induction f1 with
  | zero =>
    intro f2 l h1 _
    have hl : l = [] := List.length_eq_zero.mp (Nat.le_zero.mp h1)
    subst hl
    cases f2 <;> rfl
  | succ f ih =>
    intro f2 l h1 h2
    cases l with
    | nil => cases f2 <;> rfl
    | cons c rest =>
      cases f2 with
      | zero => simp at h2
      | succ f2' =>
        simp only [subAllFuel]
        cases hm : tryMatchCapture (c :: rest) with
        | some pr =>
          have hlen := tryMatchCapture_len _ pr hm
          show repl ++ subAllFuel repl f pr.2 = repl ++ subAllFuel repl f2' pr.2
          simp only [List.length_cons] at h1 h2 hlen
          rw [ih f2' pr.2 (by omega) (by omega)]
        | none =>
          show c :: subAllFuel repl f rest = c :: subAllFuel repl f2' rest
          simp only [List.length_cons] at h1 h2
          rw [ih f2' rest (by omega) (by omega)]

theorem subAll_cons_none (repl : List Char) (c : Char) (l : List Char)
    (h : tryMatchCapture (c :: l) = none) :
    subAll repl (c :: l) = c :: subAll repl l := by
  show subAllFuel repl (c :: l).length (c :: l) = c :: subAllFuel repl l.length l
  simp only [List.length_cons, subAllFuel]
  rw [h]

theorem subAll_match (repl : List Char) (l v r : List Char)
    (h : tryMatchCapture l = some (v, r)) :
    subAll repl l = repl ++ subAll repl r := by
  have hlen := tryMatchCapture_len l (v, r) h
  cases l with
  | nil => simp at hlen
  | cons c rest =>
    show subAllFuel repl (c :: rest).length (c :: rest) = repl ++ subAllFuel repl r.length r
    simp only [List.length_cons, subAllFuel]
    rw [h]
    show repl ++ subAllFuel repl rest.length r = repl ++ subAllFuel repl r.length r
    simp only [List.length_cons] at hlen
    rw [subAllFuel_congr repl rest.length r.length r (by omega) (Nat.le_refl _)]

theorem subAll_skip (repl : List Char) (a : List Char) (t : List Char)
    (hq : ∀ c ∈ a, c ≠ '"') :
    subAll repl (a ++ 'v' :: t) = a ++ subAll repl ('v' :: t) := by
  induction a with
  | nil => simp
  | cons x a2 ih =>
    have hnone : tryMatchCapture (x :: (a2 ++ 'v' :: t)) = none := by
      rw [← List.cons_append]
      exact tryMatchCapture_none_straddle (x :: a2) t hq (by simp)
    rw [List.cons_append, subAll_cons_none repl x (a2 ++ 'v' :: t) hnone]
    rw [ih (fun c hc => hq c (by simp [hc]))]
    rw [List.cons_append]

theorem subAll_id_noquote (repl : List Char) (a : List Char)
    (hq : ∀ c ∈ a, c ≠ '"') : subAll repl a = a := by
  induction a with
  | nil => rfl
  | cons x a2 ih =>
    rw [subAll_cons_none repl x a2 (tryMatchCapture_none_noquote _ hq)]
    rw [ih (fun c hc => hq c (by simp [hc]))]

theorem subAll_occ (repl v r : List Char) (hv : v ≠ []) (hq : ∀ c ∈ v, c ≠ '"') :
    subAll repl (versionLit ++ (v ++ '"' :: r)) = repl ++ subAll repl r :=
  subAll_match repl _ v r (tryMatchCapture_occ v r hv hq)

theorem subAll_id_of_no_match (repl : List Char) :
    ∀ l, hasMatch l = false → subAll repl l = l := by
  intro l
  induction l with
  | nil => intro _; rfl
  | cons c rest ih =>
    intro h
    cases hm : tryMatchCapture (c :: rest) with
    | some pr => rw [hasMatch, hm] at h; simp at h
    | none =>
      rw [hasMatch, hm] at h
      simp only [Option.isSome_none, Bool.false_or] at h
      rw [subAll_cons_none repl c rest hm, ih h]

theorem trimChars_eq_nil_iff (l : List Char) :
    trimChars l = [] ↔ ∀ c ∈ l, isSpaceChar c = true := by
  unfold trimChars
  rw [List.reverse_eq_nil_iff, List.dropWhile_eq_nil_iff]
  constructor
  · intro h c hc
    have hsplit := List.takeWhile_append_dropWhile isSpaceChar l
    rw [← hsplit] at hc
    rcases List.mem_append.mp hc with h1 | h2
    · exact List.mem_takeWhile_imp h1
    · exact h c (List.mem_reverse.mpr h2)
  · intro h c hc
    have h2 : c ∈ l.dropWhile isSpaceChar := List.mem_reverse.mp hc
    have hcl : c ∈ l := by
      rw [← List.takeWhile_append_dropWhile isSpaceChar l]
      exact List.mem_append.mpr (Or.inr h2)
    exact h c hcl

theorem trim_tagListOutput_iff (w : GitWorld) (version : String) :
    (trimChars (tagListOutput w ("v" ++ version)) ≠ []) ↔ (("v" ++ version) ∈ w.tags) := by
  by_cases hm : ("v" ++ version) ∈ w.tags
  · have hne : trimChars (tagListOutput w ("v" ++ version)) ≠ [] := by
      rw [tagListOutput, if_pos hm]
      intro hnil
      have hall := (trimChars_eq_nil_iff _).mp hnil
      have hv : 'v' ∈ ("v" ++ version).data ++ ['\n'] := by
        rw [String.data_append]
        exact List.mem_append.mpr (Or.inl (List.mem_append.mpr (Or.inl (by decide))))
      have := hall 'v' hv
      simp [isSpaceChar] at this
    simp [hne, hm]
  · have heq : trimChars (tagListOutput w ("v" ++ version)) = [] := by
      rw [tagListOutput, if_neg hm]
      rfl
    simp [heq, hm]

theorem natToDigitsFuel_ne_nil (fuel n : Nat) : natToDigitsFuel fuel n ≠ [] := by
  cases fuel with
  | zero => simp [natToDigitsFuel]
  | succ f =>
    unfold natToDigitsFuel
    by_cases h : n < 10
    · rw [if_pos h]; simp
    · rw [if_neg h]; simp

theorem natToDigits_ne_nil (n : Nat) : natToDigits n ≠ [] :=
  natToDigitsFuel_ne_nil n n

theorem natToDigitsFuel_all_digit :
    ∀ (fuel n : Nat), n ≤ fuel → ∀ c ∈ natToDigitsFuel fuel n, c.isDigit = true := by
  intro fuel
  induction fuel with
  | zero =>
    intro n hn c hc
    have h0 : n = 0 := Nat.le_zero.mp hn
    subst h0
    simp only [natToDigitsFuel, List.mem_singleton] at hc
    subst hc
    decide
  | succ f ih =>
    intro n hn c hc
    unfold natToDigitsFuel at hc
    by_cases h : n < 10
    · rw [if_pos h] at hc
      simp only [List.mem_singleton] at hc
      subst hc
      have h10 : ∀ d < 10, (Nat.digitChar d).isDigit = true := by decide
      exact h10 n h
    · rw [if_neg h] at hc
      rcases List.mem_append.mp hc with h1 | h2
      · have hdiv : n / 10 ≤ f := by
          have hlt : n / 10 < n := Nat.div_lt_self (by omega) (by omega)
          omega
        exact ih (n / 10) hdiv c h1
      · simp only [List.mem_singleton] at h2
        subst h2
        have h10 : ∀ d < 10, (Nat.digitChar d).isDigit = true := by decide
        exact h10 (n % 10) (Nat.mod_lt n (by omega))

theorem natToDigits_all_digit (n : Nat) : ∀ c ∈ natToDigits n, c.isDigit = true :=
  natToDigitsFuel_all_digit n n (Nat.le_refl n)

theorem digitsToNat_append_singleton (l : List Char) (c : Char) :
    digitsToNat (l ++ [c]) = 10 * digitsToNat l + (c.toNat - 48) := by
  unfold digitsToNat
  rw [List.foldl_append]
  rfl

theorem digitsToNat_natToDigitsFuel :
    ∀ (fuel n : Nat), n ≤ fuel → digitsToNat (natToDigitsFuel fuel n) = n := by
  intro fuel
  induction fuel with
  | zero =>
    intro n hn
    have h0 : n = 0 := Nat.le_zero.mp hn
    subst h0
    decide
  | succ f ih =>
    intro n hn
    unfold natToDigitsFuel
    by_cases h : n < 10
    · rw [if_pos h]
      have h10 : ∀ d < 10, digitsToNat [Nat.digitChar d] = d := by decide
      exact h10 n h
    · rw [if_neg h]
      rw [digitsToNat_append_singleton]
      have hdiv : n / 10 ≤ f := by
        have hlt : n / 10 < n := Nat.div_lt_self (by omega) (by omega)
        omega
      rw [ih (n / 10) hdiv]
      have h10 : ∀ d < 10, (Nat.digitChar d).toNat - 48 = d := by decide
      rw [h10 (n % 10) (Nat.mod_lt n (by omega))]
      omega

theorem digitsToNat_natToDigits (n : Nat) : digitsToNat (natToDigits n) = n :=
  digitsToNat_natToDigitsFuel n n (Nat.le_refl n)

theorem afterDot_some (X r : List Char) (h : afterDot X = some r) : X = '.' :: r := by
  cases X with
  | nil => simp [afterDot] at h
  | cons c cs =>
    by_cases hc : c = '.'
    · subst hc
      have he : afterDot ('.' :: cs) = some cs := by simp [afterDot]
      rw [he] at h
      rw [Option.some.inj h]
    · simp [afterDot, hc] at h

theorem tailOk_iff (t : List Char) : tailOk t = true ↔ SuffixAccepted t := by
  cases t with
  | nil => simp [tailOk, SuffixAccepted]
  | cons c rest =>
    by_cases hn : c = '\n'
    · subst hn
      have he : tailOk ('\n' :: rest) = rest.isEmpty := by simp [tailOk]
      rw [he, List.isEmpty_iff]
      simp only [SuffixAccepted]
      constructor
      · intro h; subst h; exact Or.inr (Or.inl rfl)
      · rintro (h | h | ⟨r, hr, _⟩)
        · exact absurd h (by simp)
        · obtain ⟨_, h2⟩ := List.cons.inj h; exact h2
        · obtain ⟨h1, _⟩ := List.cons.inj hr; exact absurd h1 (by decide)
    · by_cases hd : c = '-'
      · subst hd
        have he : tailOk ('-' :: rest) = rest.dropLast.all (fun x => x != '\n') := by
          simp [tailOk]
        rw [he, List.all_eq_true]
        simp only [SuffixAccepted]
        constructor
        · intro h
          refine Or.inr (Or.inr ⟨rest, rfl, ?_⟩)
          intro x hx
          simpa using h x hx
        · rintro (h | h | ⟨r, hr, hnl⟩)
          · exact absurd h (by simp)
          · obtain ⟨h1, _⟩ := List.cons.inj h; exact absurd h1 (by decide)
          · obtain ⟨_, h2⟩ := List.cons.inj hr
            intro x hx
            subst h2
            simpa using hnl x hx
      · have he : tailOk (c :: rest) = false := by simp [tailOk, hn, hd]
        rw [he]
        simp only [SuffixAccepted]
        constructor
        · intro h; exact absurd h (by simp)
        · rintro (h | h | ⟨r, hr, _⟩)
          · exact absurd h (by simp)
          · obtain ⟨h1, _⟩ := List.cons.inj h; exact absurd h1 hn
          · obtain ⟨h1, _⟩ := List.cons.inj hr; exact absurd h1 hd

theorem matchSemver_decomp (d1 d2 d3 t : List Char)
    (hd1ne : d1 ≠ []) (hd1 : ∀ c ∈ d1, c.isDigit = true)
    (hd2ne : d2 ≠ []) (hd2 : ∀ c ∈ d2, c.isDigit = true)
    (hd3ne : d3 ≠ []) (hd3 : ∀ c ∈ d3, c.isDigit = true)
    (hsuf : SuffixAccepted t) :
    matchSemver (d1 ++ '.' :: (d2 ++ '.' :: (d3 ++ t))) =
      some (digitsToNat d1, digitsToNat d2, digitsToNat d3) := by
  have hdot : Char.isDigit '.' = false := by decide
  have e1t : (d1 ++ '.' :: (d2 ++ '.' :: (d3 ++ t))).takeWhile Char.isDigit = d1 :=
    takeWhile_append_of _ d1 '.' _ hd1 hdot
  have e1d : (d1 ++ '.' :: (d2 ++ '.' :: (d3 ++ t))).dropWhile Char.isDigit =
      '.' :: (d2 ++ '.' :: (d3 ++ t)) :=
    dropWhile_append_of _ d1 '.' _ hd1 hdot
  have e2t : (d2 ++ '.' :: (d3 ++ t)).takeWhile Char.isDigit = d2 :=
    takeWhile_append_of _ d2 '.' _ hd2 hdot
  have e2d : (d2 ++ '.' :: (d3 ++ t)).dropWhile Char.isDigit = '.' :: (d3 ++ t) :=
    dropWhile_append_of _ d2 '.' _ hd2 hdot
  have e3t : (d3 ++ t).takeWhile Char.isDigit = d3 := by
    rcases hsuf with h | h | ⟨r, hr, _⟩
    · subst h; rw [List.append_nil]; exact takeWhile_all_eq _ d3 hd3
    · subst h; exact takeWhile_append_of _ d3 '\n' [] hd3 (by decide)
    · subst hr; exact takeWhile_append_of _ d3 '-' r hd3 (by decide)
  have e3d : (d3 ++ t).dropWhile Char.isDigit = t := by
    rcases hsuf with h | h | ⟨r, hr, _⟩
    · subst h; rw [List.append_nil]; exact dropWhile_all_eq _ d3 hd3
    · subst h; exact dropWhile_append_of _ d3 '\n' [] hd3 (by decide)
    · subst hr; exact dropWhile_append_of _ d3 '-' r hd3 (by decide)
  have htail : tailOk t = true := (tailOk_iff t).mpr hsuf
  have hstep1 : afterDot ('.' :: (d2 ++ '.' :: (d3 ++ t))) = some (d2 ++ '.' :: (d3 ++ t)) := by
    simp [afterDot]
  have hstep2 : afterDot ('.' :: (d3 ++ t)) = some (d3 ++ t) := by
    simp [afterDot]
  unfold matchSemver
  simp only []
  rw [e1t, if_neg hd1ne, e1d, hstep1]
  simp only []
  rw [e2t, if_neg hd2ne, e2d, hstep2]
  simp only []
  rw [e3t, if_neg hd3ne, e3d, if_pos htail]

theorem matchSemver_sound (s : String) (t3 : Nat × Nat × Nat)
    (h : matchSemver s.data = some t3) : MatchesVersionPattern s := by
  unfold matchSemver at h
  simp only [] at h
  by_cases h1 : s.data.takeWhile Char.isDigit = []
  · rw [if_pos h1] at h; exact absurd h (by simp)
  rw [if_neg h1] at h
  cases ha1 : afterDot (s.data.dropWhile Char.isDigit) with
  | none => rw [ha1] at h; exact absurd h (by simp)
  | some r2 =>
    rw [ha1] at h
    simp only [] at h
    by_cases h2 : r2.takeWhile Char.isDigit = []
    · rw [if_pos h2] at h; exact absurd h (by simp)
    rw [if_neg h2] at h
    cases ha2 : afterDot (r2.dropWhile Char.isDigit) with
    | none => rw [ha2] at h; exact absurd h (by simp)
    | some r4 =>
      rw [ha2] at h
      simp only [] at h
      by_cases h3 : r4.takeWhile Char.isDigit = []
      · rw [if_pos h3] at h; exact absurd h (by simp)
      rw [if_neg h3] at h
      by_cases h4 : tailOk (r4.dropWhile Char.isDigit) = true
      · have hd1 : s.data.dropWhile Char.isDigit = '.' :: r2 := afterDot_some _ _ ha1
        have hd2 : r2.dropWhile Char.isDigit = '.' :: r4 := afterDot_some _ _ ha2
        refine ⟨s.data.takeWhile Char.isDigit, r2.takeWhile Char.isDigit,
          r4.takeWhile Char.isDigit, r4.dropWhile Char.isDigit, ?_, ⟨h1, ?_⟩,
          ⟨h2, ?_⟩, ⟨h3, ?_⟩, ?_⟩
        · conv_lhs => rw [← List.takeWhile_append_dropWhile Char.isDigit s.data]
          rw [hd1]
          have e2 : r2 = r2.takeWhile Char.isDigit ++ '.' :: r4 := by
            conv_lhs => rw [← List.takeWhile_append_dropWhile Char.isDigit r2]
            rw [hd2]
          have e3 : r4 = r4.takeWhile Char.isDigit ++ r4.dropWhile Char.isDigit :=
            (List.takeWhile_append_dropWhile _ _).symm
          rw [← e3, ← e2]
        · intro c hc; exact List.mem_takeWhile_imp hc
        · intro c hc; exact List.mem_takeWhile_imp hc
        · intro c hc; exact List.mem_takeWhile_imp hc
        · exact (tailOk_iff _).mp h4
      · rw [if_neg h4] at h; exact absurd h (by simp)

theorem matchSemver_complete (s : String) (h : MatchesVersionPattern s) :
    ∃ t3, matchSemver s.data = some t3 := by
  obtain ⟨d1, d2, d3, t, hs, ⟨hd1ne, hd1⟩, ⟨hd2ne, hd2⟩, ⟨hd3ne, hd3⟩, hsuf⟩ := h
  refine ⟨(digitsToNat d1, digitsToNat d2, digitsToNat d3), ?_⟩
  rw [hs]
  exact matchSemver_decomp d1 d2 d3 t hd1ne hd1 hd2ne hd2 hd3ne hd3 hsuf

theorem matchSemver_format (M m p : Nat) (t : List Char) (hsuf : SuffixAccepted t) :
    matchSemver ((formatVersion M m p).data ++ t) = some (M, m, p) := by
  have hdata : (formatVersion M m p).data ++ t =
      natToDigits M ++ '.' :: (natToDigits m ++ '.' :: (natToDigits p ++ t)) := by
    show (natToDigits M ++ '.' :: natToDigits m ++ '.' :: natToDigits p) ++ t = _
    simp
  rw [hdata]
  rw [matchSemver_decomp (natToDigits M) (natToDigits m) (natToDigits p) t
    (natToDigits_ne_nil M) (natToDigits_all_digit M)
    (natToDigits_ne_nil m) (natToDigits_all_digit m)
    (natToDigits_ne_nil p) (natToDigits_all_digit p) hsuf]
  rw [digitsToNat_natToDigits, digitsToNat_natToDigits, digitsToNat_natToDigits]

theorem bump_version_major (s : String) (M m p : Nat)
    (h : parse_version s = Except.ok (M, m, p)) :
    bump_version s "major" = Except.ok (formatVersion (M + 1) 0 0) := by
  unfold bump_version
  rw [h]
  rfl

theorem bump_version_minor (s : String) (M m p : Nat)
    (h : parse_version s = Except.ok (M, m, p)) :
    bump_version s "minor" = Except.ok (formatVersion M (m + 1) 0) := by
  unfold bump_version
  rw [h]
  rfl

theorem bump_version_patch (s : String) (M m p : Nat)
    (h : parse_version s = Except.ok (M, m, p)) :
    bump_version s "patch" = Except.ok (formatVersion M m (p + 1)) := by
  unfold bump_version
  rw [h]
  rfl

theorem bump_version_other (s : String) (M m p : Nat) (k : String)
    (h : parse_version s = Except.ok (M, m, p))
    (h1 : k ≠ "major") (h2 : k ≠ "minor") (h3 : k ≠ "patch") :
    bump_version s k = Except.error (VersionError.invalidBumpKind k) := by
  unfold bump_version
  rw [h]
  show (if k = "major" then _ else if k = "minor" then _ else if k = "patch" then _ else
    Except.error (VersionError.invalidBumpKind k)) = Except.error (VersionError.invalidBumpKind k)
  rw [if_neg h1, if_neg h2, if_neg h3]

theorem bump_version_parse_error (s k : String) (e : VersionError)
    (h : parse_version s = Except.error e) :
    bump_version s k = Except.error e := by
  unfold bump_version
  rw [h]

theorem bump_version_toStr_ok (s : String) (M m p : Nat) (t : BumpType)
    (h : parse_version s = Except.ok (M, m, p)) :
    ∃ out, bump_version s t.toStr = Except.ok out := by
  cases t with
  | major => exact ⟨_, bump_version_major s M m p h⟩
  | minor => exact ⟨_, bump_version_minor s M m p h⟩
  | patch => exact ⟨_, bump_version_patch s M m p h⟩

theorem create_git_tag_exists (w : GitWorld) (version : String) (message : Option String)
    (hm : ("v" ++ version) ∈ w.tags) :
    create_git_tag w version message =
      ⟨w, [GitCmd.listTags ("v" ++ version)],
       ["Tag " ++ ("v" ++ version) ++ " already exists"], none⟩ := by
  unfold create_git_tag
  simp only []
  rw [if_pos ((trim_tagListOutput_iff w version).mpr hm)]

theorem create_git_tag_new_fail (w : GitWorld) (version : String) (message : Option String)
    (hm : ("v" ++ version) ∉ w.tags) (hc : w.createFails = true) :
    create_git_tag w version message =
      ⟨w, [GitCmd.listTags ("v" ++ version),
        GitCmd.createTag ("v" ++ version) (message.getD ("Release version " ++ version))],
       ["Error creating git tag"], some 1⟩ := by
  unfold create_git_tag
  simp only []
  rw [if_neg (fun hne => hm ((trim_tagListOutput_iff w version).mp hne)), if_pos hc]

theorem create_git_tag_new_ok (w : GitWorld) (version : String) (message : Option String)
    (hm : ("v" ++ version) ∉ w.tags) (hc : w.createFails = false) :
    create_git_tag w version message =
      ⟨{ w with tags := ("v" ++ version) :: w.tags },
       [GitCmd.listTags ("v" ++ version),
        GitCmd.createTag ("v" ++ version) (message.getD ("Release version " ++ version))],
       ["Created tag " ++ ("v" ++ version)], none⟩ := by
  unfold create_git_tag
  simp only []
  rw [if_neg (fun hne => hm ((trim_tagListOutput_iff w version).mp hne)),
    if_neg (by simp [hc])]

theorem push_tag_fail (w : GitWorld) (version : String) (h : w.pushFails = true) :
    push_tag w version =
      ⟨[GitCmd.pushTag "origin" ("v" ++ version)], ["Error pushing tag"], some 1⟩ := by
  unfold push_tag
  simp only []
  rw [if_pos h]

theorem push_tag_ok (w : GitWorld) (version : String) (h : w.pushFails = false) :
    push_tag w version =
      ⟨[GitCmd.pushTag "origin" ("v" ++ version)],
       ["Pushed tag " ++ ("v" ++ version) ++ " to remote"], none⟩ := by
  unfold push_tag
  simp only []
  rw [if_neg (by simp [h])]

/-- C9: for every state in which the manifest file does not exist,
`update_version_file` is a no-op that emits the warning line and returns
successfully: the filesystem stays `none` (no file is created) and the
function does not fail. -/
theorem c9_missing_file_noop (v : String) :
    update_version_file none v =
      (none, ["Warning: pyproject.toml not found, skipping version update"]) := rfl

/-- C10: for every existing manifest whose content contains no substring
matching `version = "..."` (no occurrence anywhere, so `re.sub` matches
zero times), `update_version_file` succeeds, rewrites the file with content
identical to what it read, and prints the normal success message. -/
theorem c10_no_match_rewrite (content v : String)
    (h : hasMatch content.data = false) :
    update_version_file (some content) v =
      (some content, ["Updated version in pyproject.toml to " ++ v]) := by
  obtain ⟨d⟩ := content
  show (some (String.mk (subAll (versionRepl v) d)),
    ["Updated version in pyproject.toml to " ++ v]) =
    (some (String.mk d), ["Updated version in pyproject.toml to " ++ v])
  rw [subAll_id_of_no_match (versionRepl v) d h]

/-- Witness for C10 at a concrete manifest without a version line. -/
theorem c10_no_match_rewrite_witness :
    update_version_file (some "name = \"pkg\"\n") "9.9.9" =
      (some "name = \"pkg\"\n", ["Updated version in pyproject.toml to 9.9.9"]) :=
  c10_no_match_rewrite "name = \"pkg\"\n" "9.9.9" (by decide)

/-- C5: for every version string and `GITHUB_REPOSITORY` environment value
(`none` = unset, defaulting to `"sip-ai-agent"`), `get_docker_images_info`
is a total pure function whose `images` mapping holds exactly the four
registry strings, in insertion order. -/
theorem c5_docker_images (version : String) (repoEnv : Option String) :
    (get_docker_images_info version repoEnv).registry = "ghcr.io" ∧
    (get_docker_images_info version repoEnv).repository = repoEnv.getD "sip-ai-agent" ∧
    (get_docker_images_info version repoEnv).version = version ∧
    (get_docker_images_info version repoEnv).images =
      [("sip_agent", "ghcr.io" ++ "/" ++ repoEnv.getD "sip-ai-agent" ++ ":" ++ version),
       ("sip_agent_latest", "ghcr.io" ++ "/" ++ repoEnv.getD "sip-ai-agent" ++ ":latest"),
       ("web_ui", "ghcr.io" ++ "/" ++ repoEnv.getD "sip-ai-agent" ++ "-web:" ++ version),
       ("web_ui_latest", "ghcr.io" ++ "/" ++ repoEnv.getD "sip-ai-agent" ++ "-web:latest")] :=
  ⟨rfl, rfl, rfl, rfl⟩

/-- C2, counterexample to the claim as stated: a manifest whose version
value `"abc"` does not match the semantic-version pattern makes
`get_current_version` return `"abc"` itself, not the default `"0.1.0"`. -/
theorem c2_counterexample :
    get_current_version (some "version = \"abc\"") = "abc" ∧
    matchSemver "abc".data = none ∧
    "abc" ≠ "0.1.0" :=
  ⟨rfl, rfl, by decide⟩

/-- C2, amended: `get_current_version` never fails (it is total) and
returns the default `"0.1.0"` exactly when the manifest file is absent or
its content has no `version = "..."` match; when a match exists, the
captured value is returned as is, without semantic-version validation. -/
theorem c2_amended_default :
    get_current_version none = "0.1.0" ∧
    (∀ content : String, searchVersionValue content.data = none →
      get_current_version (some content) = "0.1.0") ∧
    (∀ (content : String) (v : List Char), searchVersionValue content.data = some v →
      get_current_version (some content) = String.mk v) := by
  refine ⟨rfl, ?_, ?_⟩
  · intro content h
    show (match searchVersionValue content.data with
      | some val => String.mk val
      | none => "0.1.0") = "0.1.0"
    rw [h]
  · intro content v h
    show (match searchVersionValue content.data with
      | some val => String.mk val
      | none => "0.1.0") = String.mk v
    rw [h]

/-- Witness for C2 (amended) at a manifest without a version line and at
one with a non-semver value. -/
theorem c2_amended_default_witness :
    get_current_version (some "name = \"x\"") = "0.1.0" ∧
    get_current_version (some "version = \"not-semver\"") = String.mk "not-semver".data := by
  constructor
  · exact c2_amended_default.2.1 "name = \"x\"" rfl
  · exact c2_amended_default.2.2 "version = \"not-semver\"" "not-semver".data rfl

/-- C3: for every version string parsing to a triple `(M, m, p)`,
`bump_version` returns `"(M+1).0.0"` for kind `major`, `"M.(m+1).0"` for
kind `minor`, `"M.m.(p+1)"` for kind `patch`, and fails with the
invalid-bump-kind `ValueError` for every other kind. -/
theorem c3_bump_rules (s : String) (M m p : Nat)
    (h : parse_version s = Except.ok (M, m, p)) :
    bump_version s "major" = Except.ok (formatVersion (M + 1) 0 0) ∧
    bump_version s "minor" = Except.ok (formatVersion M (m + 1) 0) ∧
    bump_version s "patch" = Except.ok (formatVersion M m (p + 1)) ∧
    (∀ k, k ≠ "major" → k ≠ "minor" → k ≠ "patch" →
      bump_version s k = Except.error (VersionError.invalidBumpKind k)) :=
  ⟨bump_version_major s M m p h, bump_version_minor s M m p h,
   bump_version_patch s M m p h,
   fun k h1 h2 h3 => bump_version_other s M m p k h h1 h2 h3⟩

/-- Witness for C3 at `"1.2.3"` and the invalid kind `"banana"`. -/
theorem c3_bump_rules_witness :
    bump_version "1.2.3" "major" = Except.ok (formatVersion 2 0 0) ∧
    bump_version "1.2.3" "minor" = Except.ok (formatVersion 1 3 0) ∧
    bump_version "1.2.3" "patch" = Except.ok (formatVersion 1 2 4) ∧
    bump_version "1.2.3" "banana" = Except.error (VersionError.invalidBumpKind "banana") := by
  have h := c3_bump_rules "1.2.3" 1 2 3 rfl
  exact ⟨h.1, h.2.1, h.2.2.1, h.2.2.2 "banana" (by decide) (by decide) (by decide)⟩

/-- C8: for every input text that does not match
`^(\d+)\.(\d+)\.(\d+)(-.*)?$` (under Python matching semantics),
`parse_version` fails with the invalid-format `ValueError` rather than
returning a value. -/
theorem c8_parse_rejects (s : String) (h : ¬ MatchesVersionPattern s) :
    parse_version s = Except.error (VersionError.invalidFormat s) := by
  unfold parse_version
  cases ho : matchSemver s.data with
  | none => rfl
  | some t3 => exact absurd (matchSemver_sound s t3 ho) h

/-- Witness for C8 at the three inputs named by the claim: `"1.2"`,
`"a.b.c"` and the empty string. -/
theorem c8_parse_rejects_witness :
    parse_version "1.2" = Except.error (VersionError.invalidFormat "1.2") ∧
    parse_version "a.b.c" = Except.error (VersionError.invalidFormat "a.b.c") ∧
    parse_version "" = Except.error (VersionError.invalidFormat "") := by
  have h12 : ¬ MatchesVersionPattern "1.2" := by
    intro hm
    obtain ⟨t3, ht⟩ := matchSemver_complete "1.2" hm
    rw [show matchSemver "1.2".data = none from rfl] at ht
    exact absurd ht (by simp)
  have habc : ¬ MatchesVersionPattern "a.b.c" := by
    intro hm
    obtain ⟨t3, ht⟩ := matchSemver_complete "a.b.c" hm
    rw [show matchSemver "a.b.c".data = none from rfl] at ht
    exact absurd ht (by simp)
  have hnil : ¬ MatchesVersionPattern "" := by
    intro hm
    obtain ⟨t3, ht⟩ := matchSemver_complete "" hm
    rw [show matchSemver "".data = none from rfl] at ht
    exact absurd ht (by simp)
  exact ⟨c8_parse_rejects "1.2" h12, c8_parse_rejects "a.b.c" habc,
    c8_parse_rejects "" hnil⟩

/-- C1, counterexample to the claim as stated: on content with two
`version = "..."` occurrences, `update_version_file` rewrites both (the
`re.sub` call has no count limit), so the second occurrence is not
preserved as the claim requires. -/
theorem c1_counterexample :
    update_version_file (some "version = \"1.0.0\"\nversion = \"1.0.0\"") "2.0.0" =
      (some "version = \"2.0.0\"\nversion = \"2.0.0\"",
       ["Updated version in pyproject.toml to 2.0.0"]) ∧
    ("version = \"2.0.0\"\nversion = \"2.0.0\"" : String) ≠
      "version = \"2.0.0\"\nversion = \"1.0.0\"" :=
  ⟨rfl, by decide⟩

/-- C1, amended: `update_version_file` substitutes the new value at every
occurrence of `version = "..."`, not only the first; every byte outside the
matched occurrences (here `pre`, `mid`, `post`, quote-free so that they
contain no match) is preserved unchanged, and the success line is
printed. -/
theorem c1_amended_sub_all (pre mid post v1 v2 : List Char) (newVersion : String)
    (hpre : ∀ c ∈ pre, c ≠ '"') (hmid : ∀ c ∈ mid, c ≠ '"') (hpost : ∀ c ∈ post, c ≠ '"')
    (hv1ne : v1 ≠ []) (hv1 : ∀ c ∈ v1, c ≠ '"')
    (hv2ne : v2 ≠ []) (hv2 : ∀ c ∈ v2, c ≠ '"') :
    update_version_file
      (some (String.mk (pre ++ (versionLit ++ (v1 ++ '"' ::
        (mid ++ (versionLit ++ (v2 ++ '"' :: post)))))))) newVersion =
      (some (String.mk (pre ++ (versionRepl newVersion ++
        (mid ++ (versionRepl newVersion ++ post))))),
       ["Updated version in pyproject.toml to " ++ newVersion]) := by
  have hcons : ∀ X : List Char, versionLit ++ X = 'v' :: ("ersion = \"".data ++ X) := by
    intro X
    rfl
  have hsub : subAll (versionRepl newVersion)
      (pre ++ (versionLit ++ (v1 ++ '"' :: (mid ++ (versionLit ++ (v2 ++ '"' :: post)))))) =
      pre ++ (versionRepl newVersion ++ (mid ++ (versionRepl newVersion ++ post))) := by
    rw [hcons]
    rw [subAll_skip _ pre _ hpre]
    rw [← hcons]
    rw [subAll_occ _ v1 _ hv1ne hv1]
    rw [hcons]
    rw [subAll_skip _ mid _ hmid]
    rw [← hcons]
    rw [subAll_occ _ v2 _ hv2ne hv2]
    rw [subAll_id_noquote _ post hpost]
  show (some (String.mk (subAll (versionRepl newVersion)
      (pre ++ (versionLit ++ (v1 ++ '"' :: (mid ++ (versionLit ++ (v2 ++ '"' :: post)))))))),
    ["Updated version in pyproject.toml to " ++ newVersion]) =
    (some (String.mk (pre ++ (versionRepl newVersion ++
      (mid ++ (versionRepl newVersion ++ post))))),
     ["Updated version in pyproject.toml to " ++ newVersion])
  rw [hsub]

/-- Witness for C1 (amended) at a concrete two-occurrence manifest. -/
theorem c1_amended_sub_all_witness :
    update_version_file
      (some (String.mk ("x = 1\n".data ++ (versionLit ++ ("1.0.0".data ++ '"' ::
        ("\n".data ++ (versionLit ++ ("1.0.0".data ++ '"' :: "\n".data)))))))) "2.0.0" =
      (some (String.mk ("x = 1\n".data ++ (versionRepl "2.0.0" ++
        ("\n".data ++ (versionRepl "2.0.0" ++ "\n".data))))),
       ["Updated version in pyproject.toml to 2.0.0"]) :=
  c1_amended_sub_all "x = 1\n".data "\n".data "\n".data "1.0.0".data "1.0.0".data "2.0.0"
    (by decide) (by decide) (by decide) (by decide) (by decide) (by decide) (by decide)

/-- C6: tag creation is idempotent.  When the tag `v{version}` already
exists, `create_git_tag` only lists tags, logs, and returns without error
and without invoking the tag-creation command; and two successive
invocations with the same version run the underlying create operation at
most once. -/
theorem c6_tag_idempotent :
    (∀ (w : GitWorld) (version : String) (message : Option String),
      ("v" ++ version) ∈ w.tags →
      create_git_tag w version message =
        ⟨w, [GitCmd.listTags ("v" ++ version)],
         ["Tag " ++ ("v" ++ version) ++ " already exists"], none⟩) ∧
    (∀ (w : GitWorld) (version : String) (message : Option String),
      countCreates (create_git_tag_twice w version message) ≤ 1) := by
  refine ⟨create_git_tag_exists, ?_⟩
  intro w version message
  unfold create_git_tag_twice
  simp only []
  by_cases hm : ("v" ++ version) ∈ w.tags
  · rw [create_git_tag_exists w version message hm]
    simp only []
    rw [create_git_tag_exists w version message hm]
    simp [countCreates, List.countP_cons, isCreateCmd]
  · by_cases hc : w.createFails
    · rw [create_git_tag_new_fail w version message hm hc]
      simp [countCreates, List.countP_cons, isCreateCmd]
    · have hc2 : w.createFails = false := by simpa using hc
      rw [create_git_tag_new_ok w version message hm hc2]
      simp only []
      rw [create_git_tag_exists _ version message (List.mem_cons_self _ _)]
      simp [countCreates, List.countP_cons, isCreateCmd]

/-- Witness for C6: with `v1.0.0` already present, creation is skipped;
starting from an empty tag list, two runs create at most once. -/
theorem c6_tag_idempotent_witness :
    create_git_tag ⟨["v1.0.0"], false, false⟩ "1.0.0" none =
      ⟨⟨["v1.0.0"], false, false⟩, [GitCmd.listTags "v1.0.0"],
       ["Tag v1.0.0 already exists"], none⟩ ∧
    countCreates (create_git_tag_twice ⟨[], false, false⟩ "1.0.0" none) ≤ 1 := by
  constructor
  · exact c6_tag_idempotent.1 ⟨["v1.0.0"], false, false⟩ "1.0.0" none (by decide)
  · exact c6_tag_idempotent.2 ⟨[], false, false⟩ "1.0.0" none

/-- C7, counterexample to the claim as stated: with `--type patch` present
and a git world in which neither tag-create nor tag-push would fail,
`main` still exits with code 1, because the manifest version `"abc"` makes
`bump_version` raise a `ValueError` that escapes `main` (Python exits 1 on
an uncaught exception).  Exit code 1 therefore does not occur exactly in
the three cases the claim lists. -/
theorem c7_counterexample :
    main ⟨Action.bumpA, some BumpType.patch, none, none, false⟩
      (some "version = \"abc\"") ⟨[], false, false⟩ = 1 ∧
    (some BumpType.patch ≠ (none : Option BumpType)) ∧
    (⟨[], false, false⟩ : GitWorld).createFails = false ∧
    (⟨[], false, false⟩ : GitWorld).pushFails = false :=
  ⟨rfl, by decide, rfl, rfl⟩

/-- C7, amended: every invocation exits with code 0 or 1, and it exits
with code 1 exactly when the `--type` option is missing for `bump`, or the
current version string fails to parse during `bump` (the case the original
claim omits), or the tag-create invocation fails, or the tag-push
invocation fails. -/
theorem c7_exit_codes_amended (args : Args) (fs : Option String) (w : GitWorld) :
    (main args fs w = 0 ∨ main args fs w = 1) ∧
    (main args fs w = 1 ↔
      (args.action = Action.bumpA ∧
        (args.type = none ∨ ∃ e, parse_version (get_current_version fs) = Except.error e)) ∨
      (args.action = Action.tagA ∧
        ((("v" ++ args.version.getD (get_current_version fs)) ∉ w.tags ∧
            w.createFails = true) ∨
         ((("v" ++ args.version.getD (get_current_version fs)) ∈ w.tags ∨
            w.createFails = false) ∧
          args.push = true ∧ w.pushFails = true)))) := by
  obtain ⟨act, ty, ver, msg, pu⟩ := args
  cases act with
  | currentA =>
    refine ⟨Or.inl rfl, ?_⟩
    simp [main]
  | infoA =>
    refine ⟨Or.inl rfl, ?_⟩
    simp [main]
  | bumpA =>
    cases ty with
    | none =>
      refine ⟨Or.inr rfl, ?_⟩
      simp [main]
    | some t =>
      cases hp : parse_version (get_current_version fs) with
      | error e =>
        have hb := bump_version_parse_error (get_current_version fs) t.toStr e hp
        have hmain : main ⟨Action.bumpA, some t, ver, msg, pu⟩ fs w = 1 := by
          show (match bump_version (get_current_version fs) t.toStr with
            | Except.error _ => 1
            | Except.ok _ => 0) = 1
          rw [hb]
        rw [hmain]
        refine ⟨Or.inr rfl, ?_⟩
        constructor
        · intro _
          exact Or.inl ⟨rfl, Or.inr ⟨e, rfl⟩⟩
        · intro _
          rfl
      | ok v3 =>
        obtain ⟨M, mm, pp⟩ := v3
        obtain ⟨out, hb⟩ := bump_version_toStr_ok (get_current_version fs) M mm pp t hp
        have hmain : main ⟨Action.bumpA, some t, ver, msg, pu⟩ fs w = 0 := by
          show (match bump_version (get_current_version fs) t.toStr with
            | Except.error _ => 1
            | Except.ok _ => 0) = 0
          rw [hb]
        rw [hmain]
        refine ⟨Or.inl rfl, ?_⟩
        constructor
        · intro h01
          exact absurd h01 (by decide)
        · rintro (⟨_, hor⟩ | ⟨hact, _⟩)
          · rcases hor with hnone | ⟨e, he⟩
            · exact absurd hnone (by simp)
            · exact absurd he (by simp)
          · exact absurd hact (by simp)
  | tagA =>
    by_cases hm : ("v" ++ ver.getD (get_current_version fs)) ∈ w.tags
    · have hcr := create_git_tag_exists w (ver.getD (get_current_version fs)) msg hm
      by_cases hpu : pu = true
      · by_cases hpf : w.pushFails = true
        · have hmain : main ⟨Action.tagA, ty, ver, msg, pu⟩ fs w = 1 := by
            simp [main, hcr, hpu, push_tag, hpf]
          rw [hmain]
          simp [hm, hpu, hpf]
        · have hmain : main ⟨Action.tagA, ty, ver, msg, pu⟩ fs w = 0 := by
            simp [main, hcr, hpu, push_tag, hpf]
          rw [hmain]
          simp [hm, hpu, hpf]
      · have hmain : main ⟨Action.tagA, ty, ver, msg, pu⟩ fs w = 0 := by
          simp [main, hcr, hpu]
        rw [hmain]
        simp [hm, hpu]
    · by_cases hc : w.createFails = true
      · have hcr := create_git_tag_new_fail w (ver.getD (get_current_version fs)) msg hm hc
        have hmain : main ⟨Action.tagA, ty, ver, msg, pu⟩ fs w = 1 := by
          simp [main, hcr]
        rw [hmain]
        simp [hm, hc]
      · have hc2 : w.createFails = false := by simpa using hc
        have hcr := create_git_tag_new_ok w (ver.getD (get_current_version fs)) msg hm hc2
        by_cases hpu : pu = true
        · by_cases hpf : w.pushFails = true
          · have hmain : main ⟨Action.tagA, ty, ver, msg, pu⟩ fs w = 1 := by
              simp [main, hcr, hpu, push_tag, hpf]
            rw [hmain]
            simp [hm, hc2, hpu, hpf]
          · have hmain : main ⟨Action.tagA, ty, ver, msg, pu⟩ fs w = 0 := by
              simp [main, hcr, hpu, push_tag, hpf]
            rw [hmain]
            simp [hm, hc2, hpu, hpf]
        · have hmain : main ⟨Action.tagA, ty, ver, msg, pu⟩ fs w = 0 := by
            simp [main, hcr, hpu]
          rw [hmain]
          simp [hm, hc2, hpu]

/-- C4: formatting the parsed value of any version text yields the
canonical `"major.minor.patch"` text.  A canonical text extended by any
pre-release suffix the pattern accepts parses to the bare triple (the
suffix is dropped), the canonical text itself contains only digits and
dots (so no suffix characters survive), and every value reconstructed
after a bump is such a canonical text. -/
theorem c4_canonical_format :
    (∀ (M m p : Nat) (t : List Char), tailOk t = true →
      parse_version (String.mk ((formatVersion M m p).data ++ t)) = Except.ok (M, m, p)) ∧
    (∀ (M m p : Nat), ∀ c ∈ (formatVersion M m p).data, c.isDigit = true ∨ c = '.') ∧
    (∀ (s : String) (M m p : Nat) (k : String), parse_version s = Except.ok (M, m, p) →
      (k = "major" ∨ k = "minor" ∨ k = "patch") →
      ∃ M2 m2 p2, bump_version s k = Except.ok (formatVersion M2 m2 p2)) := by
  refine ⟨?_, ?_, ?_⟩
  · intro M m p t ht
    unfold parse_version
    rw [show (String.mk ((formatVersion M m p).data ++ t)).data =
      (formatVersion M m p).data ++ t from rfl]
    rw [matchSemver_format M m p t ((tailOk_iff t).mp ht)]
  · intro M m p c hc
    have hd : (formatVersion M m p).data =
        (natToDigits M ++ ('.' :: natToDigits m)) ++ ('.' :: natToDigits p) := rfl
    rw [hd] at hc
    rcases List.mem_append.mp hc with h1 | h1
    · rcases List.mem_append.mp h1 with h2 | h2
      · exact Or.inl (natToDigits_all_digit M c h2)
      · rcases List.mem_cons.mp h2 with h3 | h3
        · exact Or.inr h3
        · exact Or.inl (natToDigits_all_digit m c h3)
    · rcases List.mem_cons.mp h1 with h2 | h2
      · exact Or.inr h2
      · exact Or.inl (natToDigits_all_digit p c h2)
  · intro s M m p k h hk
    rcases hk with hk | hk | hk <;> subst hk
    · exact ⟨M + 1, 0, 0, bump_version_major s M m p h⟩
    · exact ⟨M, m + 1, 0, bump_version_minor s M m p h⟩
    · exact ⟨M, m, p + 1, bump_version_patch s M m p h⟩

/-- Witness for C4 at `"1.2.3-rc1"`: the suffix is accepted by parse and
dropped, and the bump rebuilds a canonical text. -/
theorem c4_canonical_format_witness :
    parse_version "1.2.3-rc1" = Except.ok (1, 2, 3) ∧
    (∃ M2 m2 p2, bump_version "1.2.3-rc1" "minor" = Except.ok (formatVersion M2 m2 p2)) := by
  have h1 : parse_version "1.2.3-rc1" = Except.ok (1, 2, 3) := by
    have h := c4_canonical_format.1 1 2 3 "-rc1".data (by decide)
    exact h
  exact ⟨h1, c4_canonical_format.2.2 "1.2.3-rc1" 1 2 3 "minor" h1 (Or.inr (Or.inl rfl))⟩

end VersionScript
